import Mathlib

/-!
Verification of the archiver program (`archiver.py`).

The program is a command-line archiver: it compresses or extracts a file or
directory with one of two codecs (zstd / bz2), optionally wrapping directories
in a tar container, with optional progress reporting and benchmark output.

We give a shallow embedding:
* the filesystem is an association list from path strings to nodes
  (a node is a file with a byte list, or a directory holding a tree);
* the two codec backends and the tar library are external collaborators
  (out of scope per the specification), modelled as parameters; the zstd
  backend is a stateful chunked compressor/decompressor, the bz2 backend
  is one-shot, and the tar library encodes a named directory tree to bytes;
* bytes are natural numbers (the programs never inspect byte values);
* `main` is a function from arguments and a filesystem to a final
  filesystem, an optional error (a `sys.exit(1)` diagnostic or a raised
  exception), the list of `(done, total)` pairs passed to the progress
  reporter, and a trace of filesystem operations;
* real-number arithmetic in the progress bar (`int(width * (done/total))`)
  is modelled exactly, i.e. as natural floor division.
-/

set_option linter.unusedVariables false
set_option linter.unnecessarySeqFocus false

namespace Archiver

/-- Bytes of a file, as a list of naturals. -/
abbrev Bytes := List Nat

/-- A filesystem node: a regular file with contents, or a directory whose
entries are an association list of names to nodes. -/
inductive FsNode where
  | file (data : Bytes)
  | dir (entries : List (String × FsNode))

/-- The filesystem: an association list from (top-level) path strings to
nodes. -/
abbrev Fs := List (String × FsNode)

/-- Look up a path in the filesystem. -/
def lookupFs (fs : Fs) (p : String) : Option FsNode :=
  match fs with
  | [] => none
  | (q, n) :: r => if q = p then some n else lookupFs r p

/-- Write (create or replace) the node at a path. -/
def setFs (fs : Fs) (p : String) (n : FsNode) : Fs :=
  match fs with
  | [] => [(p, n)]
  | (q, m) :: r => if q = p then (p, n) :: r else (q, m) :: setFs r p n

/-- Remove a path from the filesystem (`os.remove`). -/
def removeFs (fs : Fs) (p : String) : Fs :=
  match fs with
  | [] => []
  | (q, m) :: r => if q = p then removeFs r p else (q, m) :: removeFs r p

/-- `os.path.exists`. -/
def existsFs (fs : Fs) (p : String) : Bool :=
  (lookupFs fs p).isSome

/-- `Path.is_dir()`. -/
def isDirFs (fs : Fs) (p : String) : Bool :=
  match lookupFs fs p with
  | some (.dir _) => true
  | _ => false

/-- `Path.is_file()`. -/
def isFileFs (fs : Fs) (p : String) : Bool :=
  match lookupFs fs p with
  | some (.file _) => true
  | _ => false

/-! ### Path components and suffixes (Python `pathlib`) -/

/-- Split a character list at every occurrence of the separator, with the
piece accumulated so far (`str.split(sep)` for a one-character separator). -/
def splitOnCharAux (c : Char) : List Char → List Char → List (List Char)
  | [], acc => [acc.reverse]
  | x :: xs, acc =>
    if x = c then acc.reverse :: splitOnCharAux c xs []
    else splitOnCharAux c xs (x :: acc)

/-- `str.split(sep)` for a one-character separator. -/
def splitOnChar (c : Char) (cs : List Char) : List (List Char) :=
  splitOnCharAux c cs []

/-- `Path(p).name`: the final path component (empty and `.` components are
dropped, as `pathlib` normalisation does). -/
def pathName (p : String) : String :=
  String.mk (((splitOnChar '/' p.toList).filter
    (fun l => l ≠ [] ∧ l ≠ ['.'])).getLastD [])

/-- `Path.suffixes` of a final path component: the list of dot-suffixes.
Mirrors CPython: a name ending in a dot (`name.endswith('.')`) has no
suffixes; leading dots are stripped; the remaining name is split on dots
and every part but the first becomes a suffix. -/
def suffixesOf (name : String) : List String :=
  let cs := name.toList
  if cs.getLast? = some '.' then []
  else
    match splitOnChar '.' (cs.dropWhile (fun c => c = '.')) with
    | [] => []
    | _ :: rest => rest.map (fun l => String.mk ('.' :: l))

/-- `Path.suffix` of a final path component: the last dot-suffix, or the
empty string. Agrees with CPython's `rfind`-based definition. -/
def suffixOf (name : String) : String :=
  (suffixesOf name).getLastD ""

/-- Whether a final path component carries the double-suffix bundle form:
`len(suffixes) == 2 and suffixes[0] == ".tar"`. -/
def isTarName (name : String) : Bool :=
  (suffixesOf name).length == 2 && (suffixesOf name).headD "" == ".tar"

/-! ### Size Inspector (`calc_size`) -/

mutual
/-- The contents of all regular files reachable from a node
(`p.rglob("*")` restricted to files, in traversal order). -/
def nodeFiles : FsNode → List Bytes
  | .file d => [d]
  | .dir es => entriesFiles es

/-- The contents of all regular files in a directory tree. -/
def entriesFiles : List (String × FsNode) → List Bytes
  | [] => []
  | (_, n) :: r => nodeFiles n ++ entriesFiles r
end

/-- `calc_size(path)`: size of a file, recursive sum over a directory
(`sum(f.stat().st_size for f in p.rglob("*") if f.is_file())`), and `0`
when the path does not exist. -/
def calc_size (fs : Fs) (p : String) : Nat :=
  match lookupFs fs p with
  | some (.file d) => d.length
  | some (.dir es) => ((entriesFiles es).map List.length).sum
  | none => 0

mutual
/-- Total size of the regular files under a node, each directory itself
contributing `0` (the specification's reading of the size contract). -/
def nodeSize : FsNode → Nat
  | .file d => d.length
  | .dir es => entriesSize es

/-- Total size of the regular files in a directory tree. -/
def entriesSize : List (String × FsNode) → Nat
  | [] => 0
  | (_, n) :: r => nodeSize n + entriesSize r
end

/-! ### Progress Reporter (`pacman_progress`) -/

/-- The bar width used by `pacman_progress`. -/
def barWidth : Nat := 30

/-- The rendered bar between the brackets of `pacman_progress`:
`"█" * filled + ">" + "░" * (empty - 1 if empty > 0 else 0)` with
`filled = int(width * (done / total))`, modelled in exact arithmetic as
floor division. Rendered as a list of character cells. -/
def pacmanBar (done total : Nat) : List Char :=
  let filled := barWidth * done / total
  let empty := barWidth - filled
  List.replicate filled '█' ++ ['>'] ++
    List.replicate (if empty > 0 then empty - 1 else 0) '░'

/-! ### Codec and tar backends (external collaborators)

The compression primitives and the tar container format are out of scope
per the specification; they are modelled as opaque backends. -/

/-- The zstd backend: stateful `ZstdCompressor` / `ZstdDecompressor`
objects. `σ` and `τ` are the compressor/decompressor state types;
decompression may reject malformed input. -/
structure ZstdLib (σ τ : Type) where
  newCompressor : σ
  compress : σ → Bytes → σ × Bytes
  flush : σ → Bytes
  newDecompressor : τ
  decompress : τ → Bytes → Except Unit (τ × Bytes)

/-- The bz2 backend: one-shot `bz2.compress` / `bz2.decompress`;
decompression may reject malformed input. -/
structure Bz2Lib where
  compress : Bytes → Bytes
  decompress : Bytes → Except Unit Bytes

/-- The tar backend: `enc name tree` builds an archive whose single
top-level member is the directory `name` holding `tree` (what
`tar.add(folder, arcname=basename(folder))` produces); `dec` reads an
archive back into its top-level entries, rejecting malformed bytes. -/
structure TarLib where
  enc : String → List (String × FsNode) → Bytes
  dec : Bytes → Except Unit (List (String × FsNode))

/-- The fixed chunk size `256 * 1024` of both codec loops. -/
def chunkSize : Nat := 256 * 1024

/-- Progress reporter calls: the list of `(done, total)` pairs passed to
`pacman_progress`. -/
abbrev Events := List (Nat × Nat)

variable {σ τ : Type}

/-- The chunk loop of `zstd_compress`: `for i in range(0, total, chunk)`,
compressing `data[i:i+chunk]` with the threaded compressor state,
extending the output, and reporting `(i + len(part), total)` when
progress display is on. -/
def zstdCompressLoop (Z : ZstdLib σ τ) (data : Bytes) (total : Nat)
    (s : σ) (i : Nat) (out : Bytes) (ev : Events) (showP : Bool) :
    σ × Bytes × Events :=
  if h : i < total then
    let part := (data.drop i).take chunkSize
    let sc := Z.compress s part
    let ev2 := if showP then ev ++ [(i + part.length, total)] else ev
    zstdCompressLoop Z data total sc.1 (i + chunkSize) (out ++ sc.2) ev2 showP
  else (s, out, ev)
termination_by total - i
decreasing_by simp [chunkSize]; omega

/-- `zstd_compress` on in-memory bytes: fresh compressor, chunk loop,
then a final `flush` appended to the output. -/
def zstd_compress_b (Z : ZstdLib σ τ) (data : Bytes) (showP : Bool) :
    Bytes × Events :=
  let r := zstdCompressLoop Z data data.length Z.newCompressor 0 [] [] showP
  (r.2.1 ++ Z.flush r.1, r.2.2)

/-- The chunk loop of `zstd_decompress`: `while i < total`, decompressing
`data[i:i+step]` through the single threaded decompressor instance,
reporting `(i + len(block), total)`, then `i += step`. A backend
rejection aborts the loop. -/
def zstdDecompressLoop (Z : ZstdLib σ τ) (data : Bytes) (total : Nat)
    (t : τ) (i : Nat) (out : Bytes) (ev : Events) (showP : Bool) :
    Except Unit (Bytes × Events) :=
  if h : i < total then
    let block := (data.drop i).take chunkSize
    match Z.decompress t block with
    | .error _ => .error ()
    | .ok td =>
      let ev2 := if showP then ev ++ [(i + block.length, total)] else ev
      zstdDecompressLoop Z data total td.1 (i + chunkSize) (out ++ td.2) ev2 showP
  else .ok (out, ev)
termination_by total - i
decreasing_by simp [chunkSize]; omega

/-- `zstd_decompress` on in-memory bytes: fresh decompressor, chunk loop. -/
def zstd_decompress_b (Z : ZstdLib σ τ) (data : Bytes) (showP : Bool) :
    Except Unit (Bytes × Events) :=
  zstdDecompressLoop Z data data.length Z.newDecompressor 0 [] [] showP

/-- `bz2_compress` on in-memory bytes: one-shot `bz2.compress`, with a
single `(len(data), len(data))` progress report when display is on. -/
def bz2_compress_b (B : Bz2Lib) (data : Bytes) (showP : Bool) :
    Bytes × Events :=
  (B.compress data, if showP then [(data.length, data.length)] else [])

/-- `bz2_decompress` on in-memory bytes: one-shot `bz2.decompress`, with a
single `(len(data), len(data))` progress report when display is on. -/
def bz2_decompress_b (B : Bz2Lib) (data : Bytes) (showP : Bool) :
    Except Unit (Bytes × Events) :=
  match B.decompress data with
  | .error _ => .error ()
  | .ok res => .ok (res, if showP then [(data.length, data.length)] else [])

/-! ### File-level operations -/

/-- Error outcomes: `sys.exit(1)` diagnostics of `main` and exceptions
propagating out of the backends or the filesystem. -/
inductive Err where
  | invalidMode
  | unsupportedFormat
  | bundleTargetRequired
  | ioError
  | codecError
  | bundleError
deriving DecidableEq

/-- Filesystem operations performed by a run (the side-effect trace). -/
inductive Op where
  | readF (p : String)
  | writeF (p : String)
  | makedirs (p : String)
  | removeF (p : String)
  | tarAdd (folder tarPath : String)
  | tarExtract (tarPath dest : String)
deriving DecidableEq

/-- The outcome of a step (or of the whole run): the filesystem so far, an
optional error, progress reporter calls, and the operation trace. -/
structure StepR where
  fs : Fs
  err : Option Err
  ev : Events
  tr : List Op

/-- `Path(p).read_bytes()`. -/
def readBytesFs (fs : Fs) (p : String) : Except Err Bytes :=
  match lookupFs fs p with
  | some (.file d) => .ok d
  | _ => .error .ioError

/-- `zstd_compress(src, dst, show_progress)`: read the source file,
compress, write the destination file. -/
def zstd_compress_f (Z : ZstdLib σ τ) (fs : Fs) (src dst : String)
    (showP : Bool) : StepR :=
  match readBytesFs fs src with
  | .error e => ⟨fs, some e, [], []⟩
  | .ok data =>
    let r := zstd_compress_b Z data showP
    ⟨setFs fs dst (.file r.1), none, r.2, [.readF src, .writeF dst]⟩

/-- `zstd_decompress(src, dst, show_progress)`: read the source file,
decompress (raising on backend rejection), write the destination file. -/
def zstd_decompress_f (Z : ZstdLib σ τ) (fs : Fs) (src dst : String)
    (showP : Bool) : StepR :=
  match readBytesFs fs src with
  | .error e => ⟨fs, some e, [], []⟩
  | .ok data =>
    match zstd_decompress_b Z data showP with
    | .error _ => ⟨fs, some .codecError, [], [.readF src]⟩
    | .ok r => ⟨setFs fs dst (.file r.1), none, r.2, [.readF src, .writeF dst]⟩

/-- `bz2_compress(src, dst, show_progress)`. -/
def bz2_compress_f (B : Bz2Lib) (fs : Fs) (src dst : String)
    (showP : Bool) : StepR :=
  match readBytesFs fs src with
  | .error e => ⟨fs, some e, [], []⟩
  | .ok data =>
    let r := bz2_compress_b B data showP
    ⟨setFs fs dst (.file r.1), none, r.2, [.readF src, .writeF dst]⟩

/-- `bz2_decompress(src, dst, show_progress)`. -/
def bz2_decompress_f (B : Bz2Lib) (fs : Fs) (src dst : String)
    (showP : Bool) : StepR :=
  match readBytesFs fs src with
  | .error e => ⟨fs, some e, [], []⟩
  | .ok data =>
    match bz2_decompress_b B data showP with
    | .error _ => ⟨fs, some .codecError, [], [.readF src]⟩
    | .ok r => ⟨setFs fs dst (.file r.1), none, r.2, [.readF src, .writeF dst]⟩

/-- `tar_build(folder, tar_path)`: archive the directory under its base
name and write the archive file. -/
def tar_build_f (T : TarLib) (fs : Fs) (folder tarPath : String) : StepR :=
  match lookupFs fs folder with
  | some (.dir t) =>
    ⟨setFs fs tarPath (.file (T.enc (pathName folder) t)), none, [],
      [.tarAdd folder tarPath]⟩
  | _ => ⟨fs, some .ioError, [], []⟩

/-- Replace or add one entry of a directory tree (what extracting a member
over an existing entry does). -/
def setEntry (es : List (String × FsNode)) (name : String) (n : FsNode) :
    List (String × FsNode) :=
  match es with
  | [] => [(name, n)]
  | (q, m) :: r => if q = name then (name, n) :: r else (q, m) :: setEntry r name n

/-- Extract a member list over the current contents of a directory. -/
def mergeEntries (t0 new : List (String × FsNode)) : List (String × FsNode) :=
  new.foldl (fun acc e => setEntry acc e.1 e.2) t0

/-- `tar_unpack(tar_path, dest_dir)`: `os.makedirs(dest_dir, exist_ok=True)`
(which raises when a regular file occupies the path), then open and extract
all members beneath the destination. A directory created by `makedirs`
persists even when the later steps fail. -/
def tar_unpack_f (T : TarLib) (fs : Fs) (tarPath destDir : String) : StepR :=
  match lookupFs fs destDir with
  | some (.file _) => ⟨fs, some .ioError, [], []⟩
  | some (.dir t0) =>
    (match readBytesFs fs tarPath with
     | .error e => ⟨fs, some e, [], [.makedirs destDir]⟩
     | .ok data =>
       match T.dec data with
       | .error _ => ⟨fs, some .bundleError, [], [.makedirs destDir, .readF tarPath]⟩
       | .ok entries =>
         ⟨setFs fs destDir (.dir (mergeEntries t0 entries)), none, [],
           [.makedirs destDir, .readF tarPath, .tarExtract tarPath destDir]⟩)
  | none =>
    let fs1 := setFs fs destDir (.dir [])
    (match readBytesFs fs1 tarPath with
     | .error e => ⟨fs1, some e, [], [.makedirs destDir]⟩
     | .ok data =>
       match T.dec data with
       | .error _ => ⟨fs1, some .bundleError, [], [.makedirs destDir, .readF tarPath]⟩
       | .ok entries =>
         ⟨setFs fs1 destDir (.dir (mergeEntries [] entries)), none, [],
           [.makedirs destDir, .readF tarPath, .tarExtract tarPath destDir]⟩)

/-! ### The orchestrator (`main`) -/

/-- The parsed command-line arguments. -/
structure Args where
  compress : Bool
  extract : Bool
  source : String
  target : String
  benchmark : Bool
  progress : Bool

/-- `main()` after argument parsing. Returns the final filesystem, `none`
for exit status `0` or `some e` for a diagnostic / escaping exception, the
progress reporter calls and the operation trace. The benchmark block only
measures time, reads sizes and prints, so it contributes nothing to the
outcome. -/
def main (Z : ZstdLib σ τ) (B : Bz2Lib) (T : TarLib) (a : Args) (fs : Fs) :
    StepR :=
  if a.compress = a.extract then ⟨fs, some .invalidMode, [], []⟩
  else
    let is_dir := isDirFs fs a.source
    let is_tar_target : Bool := isTarName (pathName a.target)
    let ext := if a.compress then suffixOf (pathName a.target)
               else suffixOf (pathName a.source)
    if ¬(ext = ".zst" ∨ ext = ".bz2") then ⟨fs, some .unsupportedFormat, [], []⟩
    else if a.compress then
      if is_dir then
        if is_tar_target then
          let s1 := tar_build_f T fs a.source "tmp_data.tar"
          match s1.err with
          | some _ => s1
          | none =>
            let s2 := if ext = ".zst" then
                        zstd_compress_f Z s1.fs "tmp_data.tar" a.target a.progress
                      else bz2_compress_f B s1.fs "tmp_data.tar" a.target a.progress
            match s2.err with
            | some e => ⟨s2.fs, some e, s2.ev, s1.tr ++ s2.tr⟩
            | none =>
              if existsFs s2.fs "tmp_data.tar" then
                ⟨removeFs s2.fs "tmp_data.tar", none, s2.ev,
                  s1.tr ++ s2.tr ++ [.removeF "tmp_data.tar"]⟩
              else ⟨s2.fs, none, s2.ev, s1.tr ++ s2.tr⟩
        else ⟨fs, some .bundleTargetRequired, [], []⟩
      else
        if ext = ".zst" then zstd_compress_f Z fs a.source a.target a.progress
        else bz2_compress_f B fs a.source a.target a.progress
    else
      let is_tar_src : Bool := isTarName (pathName a.source)
      if is_tar_src then
        let s1 := if ext = ".zst" then
                    zstd_decompress_f Z fs a.source "tmp_unpack.tar" a.progress
                  else bz2_decompress_f B fs a.source "tmp_unpack.tar" a.progress
        match s1.err with
        | some _ => s1
        | none =>
          let s2 := tar_unpack_f T s1.fs "tmp_unpack.tar" a.target
          match s2.err with
          | some e => ⟨s2.fs, some e, s1.ev, s1.tr ++ s2.tr⟩
          | none =>
            ⟨removeFs s2.fs "tmp_unpack.tar", none, s1.ev,
              s1.tr ++ s2.tr ++ [.removeF "tmp_unpack.tar"]⟩
      else
        if ext = ".zst" then zstd_decompress_f Z fs a.source a.target a.progress
        else bz2_decompress_f B fs a.source a.target a.progress

/-! ### Claim-side characterizations

The input sliced into `chunkSize`-byte pieces, the backends folded over
the pieces, and the per-chunk report sequence: the specification's reading
of the streaming passes and the resolver, stated independently of the
loops above. -/

/-- The input sliced into successive `chunkSize`-byte chunks. -/
def chunksOf (data : Bytes) : List Bytes :=
  if h : data = [] then []
  else data.take chunkSize :: chunksOf (data.drop chunkSize)
termination_by data.length
decreasing_by
  simp [List.length_drop, chunkSize]
  cases data with
  | nil => exact absurd rfl h
  | cons a l => simp

/-- One step of the compression fold: feed one part to the compressor,
appending its output. -/
def compressStep (Z : ZstdLib σ τ) (acc : σ × Bytes) (part : Bytes) :
    σ × Bytes :=
  let sc := Z.compress acc.1 part
  (sc.1, acc.2 ++ sc.2)

/-- Feeding a list of parts to a fresh compressor and flushing: the
specification's reading of the compression direction. -/
def compressAll (Z : ZstdLib σ τ) (parts : List Bytes) : Bytes :=
  let r := parts.foldl (compressStep Z) (Z.newCompressor, [])
  r.2 ++ Z.flush r.1

/-- Feeding a list of blocks to a decompressor state, concatenating the
outputs; a backend rejection aborts. -/
def decompressFrom (Z : ZstdLib σ τ) (t : τ) (blocks : List Bytes) :
    Except Unit Bytes :=
  match blocks with
  | [] => .ok []
  | b :: r =>
    match Z.decompress t b with
    | .error _ => .error ()
    | .ok td =>
      match decompressFrom Z td.1 r with
      | .error _ => .error ()
      | .ok rest => .ok (td.2 ++ rest)

/-- Feeding a list of blocks to a fresh decompressor. -/
def decompressAll (Z : ZstdLib σ τ) (blocks : List Bytes) : Except Unit Bytes :=
  decompressFrom Z Z.newDecompressor blocks

/-- The `(done, total)` reports of a chunk loop running from position `i`:
one report per chunk, at `min (i + chunkSize) total`. -/
def evSeq (i total : Nat) : Events :=
  if i < total then (min (i + chunkSize) total, total) :: evSeq (i + chunkSize) total
  else []
termination_by total - i
decreasing_by simp [chunkSize]; omega

/-- The compressed-artifact extension of an invocation: the target's
extension when compressing, the source's when extracting. -/
def artifactExt (a : Args) : String :=
  if a.compress then suffixOf (pathName a.target) else suffixOf (pathName a.source)

/-- The compressed bytes the program produces from input bytes `b` for a
codec extension. -/
def codecCompress (Z : ZstdLib σ τ) (B : Bz2Lib) (ext : String) (b : Bytes) :
    Bytes :=
  if ext = ".zst" then compressAll Z (chunksOf b) else B.compress b

/-- The decompressed bytes the program recovers from compressed bytes `b`
for a codec extension. -/
def codecDecompress (Z : ZstdLib σ τ) (B : Bz2Lib) (ext : String) (b : Bytes) :
    Except Unit Bytes :=
  if ext = ".zst" then decompressAll Z (chunksOf b) else B.decompress b

/-- The progress reports of one pass over an `n`-byte input for a codec
extension: per-chunk for zstd, a single `(n, n)` report for bz2. -/
def codecEvents (ext : String) (n : Nat) : Events :=
  if ext = ".zst" then evSeq 0 n else [(n, n)]

/-! ### Concrete backends used as witnesses -/

/-- The identity zstd backend: each chunk compresses to itself, the flush
is empty, decompression is the identity. It satisfies the codec
round-trip law. -/
def idZstd : ZstdLib Unit Unit where
  newCompressor := ()
  compress := fun _ b => ((), b)
  flush := fun _ => []
  newDecompressor := ()
  decompress := fun _ b => .ok ((), b)

/-- The identity bz2 backend. -/
def idBz2 : Bz2Lib where
  compress := id
  decompress := fun b => .ok b

/-- A directory tree used by concrete witnesses. -/
def witTree : List (String × FsNode) :=
  [("a.txt", .file [3, 4]), ("sub", .dir [("c.txt", .file [5])])]

/-- A tar backend that is correct on the witness tree. -/
def witTar : TarLib where
  enc := fun _ _ => [7]
  dec := fun _ => .ok [("d", .dir witTree)]

/-- A tar backend whose decoder rejects every archive (as `tarfile` does
on bytes that are not a tar archive). -/
def badTar : TarLib where
  enc := fun _ _ => []
  dec := fun _ => .error ()

/-- A filesystem used by concrete witnesses: one regular file and one
directory. -/
def witFs : Fs := [("f.txt", .file [1, 2]), ("d", .dir witTree)]

/-! ### Basic filesystem lemmas -/

theorem lookupFs_setFs_self (fs : Fs) (p : String) (n : FsNode) :
    lookupFs (setFs fs p n) p = some n := by
  induction fs with
  | nil => simp [setFs, lookupFs]
  | cons e r ih =>
    obtain ⟨q, m⟩ := e
    by_cases h : q = p <;> simp [setFs, lookupFs, h, ih]

theorem lookupFs_setFs_ne (fs : Fs) (p q : String) (n : FsNode) (h : q ≠ p) :
    lookupFs (setFs fs p n) q = lookupFs fs q := by
  induction fs with
  | nil => simp [setFs, lookupFs, Ne.symm h]
  | cons e r ih =>
    obtain ⟨k, m⟩ := e
    by_cases hk : k = p
    · subst hk
      simp [setFs, lookupFs, Ne.symm h]
    · simp only [setFs, if_neg hk, lookupFs]
      by_cases hq : k = q <;> simp [hq, ih]

theorem lookupFs_removeFs_self (fs : Fs) (p : String) :
    lookupFs (removeFs fs p) p = none := by
  induction fs with
  | nil => simp [removeFs, lookupFs]
  | cons e r ih =>
    obtain ⟨q, m⟩ := e
    by_cases h : q = p <;> simp [removeFs, lookupFs, h, ih]

theorem lookupFs_removeFs_ne (fs : Fs) (p q : String) (h : q ≠ p) :
    lookupFs (removeFs fs p) q = lookupFs fs q := by
  induction fs with
  | nil => simp [removeFs]
  | cons e r ih =>
    obtain ⟨k, m⟩ := e
    by_cases hk : k = p
    · subst hk
      simp [removeFs, lookupFs, Ne.symm h, ih]
    · simp only [removeFs, if_neg hk, lookupFs]
      by_cases hq : k = q <;> simp [hq, ih]

/-! ### Chunking and the loops as folds -/

theorem chunksOf_flatten (data : Bytes) : (chunksOf data).flatten = data := by
  rw [chunksOf]
  by_cases h : data = []
  · simp [h]
  · rw [dif_neg h]
    simp only [List.flatten_cons]
    rw [chunksOf_flatten (data.drop chunkSize), List.take_append_drop]
termination_by data.length
decreasing_by
  simp [List.length_drop, chunkSize]
  cases data with
  | nil => exact absurd rfl h
  | cons a l => simp

theorem drop_ne_nil_of_lt (data : Bytes) (i : Nat) (h : i < data.length) :
    data.drop i ≠ [] := by
  intro hnil
  have h2 : (data.drop i).length = data.length - i := List.length_drop ..
  rw [hnil] at h2
  simp at h2
  omega

theorem chunksOf_cons (data : Bytes) (i : Nat) (h : i < data.length) :
    chunksOf (data.drop i) =
      (data.drop i).take chunkSize :: chunksOf (data.drop (i + chunkSize)) := by
  conv_lhs => rw [chunksOf.eq_def]
  rw [dif_neg (drop_ne_nil_of_lt data i h), List.drop_drop]

theorem part_length_eq (data : Bytes) (i : Nat) (h : i < data.length) :
    i + ((data.drop i).take chunkSize).length = min (i + chunkSize) data.length := by
  have hlen : ((data.drop i).take chunkSize).length = min chunkSize (data.length - i) := by
    simp [List.length_take, List.length_drop]
  rw [hlen]
  omega

/-- The compression chunk loop is the fold of the backend over the chunks
of the remaining input, with one progress report per chunk. -/
theorem zstdCompressLoop_eq (Z : ZstdLib σ τ) (data : Bytes) (s : σ) (i : Nat)
    (out : Bytes) (ev : Events) (p : Bool) :
    zstdCompressLoop Z data data.length s i out ev p =
      (((chunksOf (data.drop i)).foldl (compressStep Z) (s, out)).1,
       ((chunksOf (data.drop i)).foldl (compressStep Z) (s, out)).2,
       ev ++ (if p then evSeq i data.length else [])) := by
  by_cases h : i < data.length
  · conv_lhs => rw [zstdCompressLoop.eq_def]
    rw [dif_pos h, zstdCompressLoop_eq, chunksOf_cons data i h]
    conv_rhs => rw [evSeq.eq_def]
    rw [if_pos h]
    have hp := part_length_eq data i h
    cases p <;>
      simp [List.foldl, compressStep, List.append_assoc, List.length_take,
        List.length_drop] <;>
      omega
  · conv_lhs => rw [zstdCompressLoop.eq_def]
    rw [dif_neg h]
    have hd : data.drop i = [] := List.drop_eq_nil_of_le (by omega)
    rw [hd]
    conv_rhs => rw [evSeq.eq_def]
    rw [if_neg h]
    cases p <;> simp [chunksOf]
termination_by data.length - i
decreasing_by simp [chunkSize]; omega

/-- `zstd_compress` on bytes: the backend folded over the chunks plus the
final flush, with the per-chunk report sequence. -/
theorem zstd_compress_b_eq (Z : ZstdLib σ τ) (data : Bytes) (p : Bool) :
    zstd_compress_b Z data p =
      (compressAll Z (chunksOf data), if p then evSeq 0 data.length else []) := by
  unfold zstd_compress_b compressAll
  rw [zstdCompressLoop_eq]
  simp

/-- The decompression chunk loop feeds the remaining chunks through the
threaded decompressor state, with one progress report per chunk. -/
theorem zstdDecompressLoop_eq (Z : ZstdLib σ τ) (data : Bytes) (t : τ) (i : Nat)
    (out : Bytes) (ev : Events) (p : Bool) :
    zstdDecompressLoop Z data data.length t i out ev p =
      match decompressFrom Z t (chunksOf (data.drop i)) with
      | .error _ => .error ()
      | .ok rest => .ok (out ++ rest, ev ++ (if p then evSeq i data.length else [])) := by
  by_cases h : i < data.length
  · conv_lhs => rw [zstdDecompressLoop.eq_def]
    rw [dif_pos h, chunksOf_cons data i h]
    conv_rhs => rw [decompressFrom]
    cases hz : Z.decompress t ((data.drop i).take chunkSize) with
    | error e => simp only [hz]
    | ok td =>
      simp only [hz]
      rw [zstdDecompressLoop_eq]
      conv_rhs => rw [evSeq.eq_def]
      rw [if_pos h]
      have hp := part_length_eq data i h
      cases hrest : decompressFrom Z td.1 (chunksOf (data.drop (i + chunkSize))) with
      | error e => simp only [hrest]
      | ok rest =>
        simp only [hrest]
        cases p <;>
          simp [List.append_assoc, List.length_take, List.length_drop] <;>
          omega
  · conv_lhs => rw [zstdDecompressLoop.eq_def]
    rw [dif_neg h]
    have hd : data.drop i = [] := List.drop_eq_nil_of_le (by omega)
    rw [hd]
    conv_rhs => rw [evSeq.eq_def]
    rw [if_neg h]
    cases p <;> simp [chunksOf, decompressFrom]
termination_by data.length - i
decreasing_by simp [chunkSize]; omega

/-- `zstd_decompress` on bytes: a single continuous decompressor fed the
chunks of the compressed input. -/
theorem zstd_decompress_b_eq (Z : ZstdLib σ τ) (data : Bytes) (p : Bool) :
    zstd_decompress_b Z data p =
      match decompressAll Z (chunksOf data) with
      | .error _ => .error ()
      | .ok rest => .ok (rest, if p then evSeq 0 data.length else []) := by
  unfold zstd_decompress_b decompressAll
  rw [zstdDecompressLoop_eq]
  cases h : decompressFrom Z Z.newDecompressor (chunksOf data) <;> simp [h]

/-! ### Properties of the report sequence -/

theorem evSeq_mem (i n : Nat) : ∀ e ∈ evSeq i n, i < e.1 ∧ e.1 ≤ n ∧ e.2 = n := by
  intro e he
  rw [evSeq.eq_def] at he
  by_cases h : i < n
  · rw [if_pos h] at he
    rcases List.mem_cons.mp he with h1 | h1
    · subst h1
      refine ⟨?_, ?_, rfl⟩ <;> simp [chunkSize] <;> omega
    · have := evSeq_mem (i + chunkSize) n e h1
      refine ⟨?_, this.2.1, this.2.2⟩
      have := this.1
      omega
  · rw [if_neg h] at he
    simp at he
termination_by n - i
decreasing_by simp [chunkSize]; omega

theorem evSeq_chain (i n : Nat) :
    List.Chain' (fun a b => a.1 < b.1) (evSeq i n) := by
  rw [evSeq.eq_def]
  by_cases h : i < n
  · rw [if_pos h]
    refine List.chain'_cons'.mpr ⟨?_, evSeq_chain (i + chunkSize) n⟩
    intro b hb
    have hmem : b ∈ evSeq (i + chunkSize) n := List.mem_of_mem_head? hb
    have hm := evSeq_mem (i + chunkSize) n b hmem
    have := hm.1
    simp only
    omega
  · rw [if_neg h]
    exact List.chain'_nil
termination_by n - i
decreasing_by simp [chunkSize]; omega

theorem evSeq_getLast (i n : Nat) (h : i < n) :
    (evSeq i n).getLast? = some (n, n) := by
  rw [evSeq.eq_def, if_pos h]
  by_cases h2 : i + chunkSize < n
  · have ih := evSeq_getLast (i + chunkSize) n h2
    rw [evSeq.eq_def, if_pos h2] at ih ⊢
    rw [List.getLast?_cons_cons]
    exact ih
  · rw [evSeq.eq_def, if_neg h2]
    have hm : min (i + chunkSize) n = n := by omega
    simp [hm]
termination_by n - i
decreasing_by simp [chunkSize]; omega

/-! ### Characterization of the file-level passes -/

theorem zstd_compress_f_eq (Z : ZstdLib σ τ) (fs : Fs) (src dst : String)
    (p : Bool) (data : Bytes) (h : lookupFs fs src = some (.file data)) :
    zstd_compress_f Z fs src dst p =
      ⟨setFs fs dst (.file (compressAll Z (chunksOf data))), none,
        (if p then evSeq 0 data.length else []), [.readF src, .writeF dst]⟩ := by
  simp [zstd_compress_f, readBytesFs, h, zstd_compress_b_eq]

theorem zstd_decompress_f_eq (Z : ZstdLib σ τ) (fs : Fs) (src dst : String)
    (p : Bool) (data rest : Bytes) (h : lookupFs fs src = some (.file data))
    (hd : decompressAll Z (chunksOf data) = .ok rest) :
    zstd_decompress_f Z fs src dst p =
      ⟨setFs fs dst (.file rest), none,
        (if p then evSeq 0 data.length else []), [.readF src, .writeF dst]⟩ := by
  simp [zstd_decompress_f, readBytesFs, h, zstd_decompress_b_eq, hd]

theorem bz2_compress_f_eq (B : Bz2Lib) (fs : Fs) (src dst : String)
    (p : Bool) (data : Bytes) (h : lookupFs fs src = some (.file data)) :
    bz2_compress_f B fs src dst p =
      ⟨setFs fs dst (.file (B.compress data)), none,
        (if p then [(data.length, data.length)] else []),
        [.readF src, .writeF dst]⟩ := by
  simp [bz2_compress_f, readBytesFs, h, bz2_compress_b]

theorem bz2_decompress_f_eq (B : Bz2Lib) (fs : Fs) (src dst : String)
    (p : Bool) (data rest : Bytes) (h : lookupFs fs src = some (.file data))
    (hd : B.decompress data = .ok rest) :
    bz2_decompress_f B fs src dst p =
      ⟨setFs fs dst (.file rest), none,
        (if p then [(data.length, data.length)] else []),
        [.readF src, .writeF dst]⟩ := by
  simp [bz2_decompress_f, readBytesFs, h, bz2_decompress_b, hd]

/-- The codec round-trip law implies that decompressing the chunked
compression of any byte sequence restores it. -/
theorem decompressAll_compressAll (Z : ZstdLib σ τ)
    (hz : ∀ parts blocks : List Bytes, blocks.flatten = compressAll Z parts →
      decompressAll Z blocks = .ok parts.flatten)
    (b : Bytes) :
    decompressAll Z (chunksOf (compressAll Z (chunksOf b))) = .ok b := by
  have h := hz (chunksOf b) (chunksOf (compressAll Z (chunksOf b)))
    (chunksOf_flatten _)
  rwa [chunksOf_flatten b] at h

/-! ### Size Inspector lemmas -/

mutual
theorem nodeFiles_sum (n : FsNode) :
    ((nodeFiles n).map List.length).sum = nodeSize n := by
  match n with
  | .file d => simp [nodeFiles, nodeSize]
  | .dir es =>
    rw [nodeFiles, nodeSize]
    exact entriesFiles_sum es

theorem entriesFiles_sum (es : List (String × FsNode)) :
    ((entriesFiles es).map List.length).sum = entriesSize es := by
  match es with
  | [] => simp [entriesFiles, entriesSize]
  | (q, m) :: r =>
    rw [entriesFiles, entriesSize]
    rw [List.map_append, List.sum_append, nodeFiles_sum m, entriesFiles_sum r]
end

/-! ### Easy facts about `main` -/

theorem main_invalid_mode (Z : ZstdLib σ τ) (B : Bz2Lib) (T : TarLib)
    (a : Args) (fs : Fs) (h : a.compress = a.extract) :
    main Z B T a fs = ⟨fs, some .invalidMode, [], []⟩ := by
  unfold main
  rw [if_pos h]

/-! ### Laws of the identity backends -/

theorem idZstd_foldl (parts : List Bytes) (acc : Bytes) :
    parts.foldl (compressStep idZstd) ((), acc) = ((), acc ++ parts.flatten) := by
  induction parts generalizing acc with
  | nil => simp
  | cons b r ih =>
    have hs : compressStep idZstd ((), acc) b = ((), acc ++ b) := rfl
    rw [List.foldl_cons, hs, ih]
    simp [List.append_assoc]

theorem idZstd_compressAll (parts : List Bytes) :
    compressAll idZstd parts = parts.flatten := by
  unfold compressAll
  rw [show idZstd.newCompressor = () from rfl, idZstd_foldl]
  simp [idZstd]

theorem idZstd_decompressFrom (blocks : List Bytes) (t : Unit) :
    decompressFrom idZstd t blocks = .ok blocks.flatten := by
  induction blocks generalizing t with
  | nil => simp [decompressFrom]
  | cons b r ih =>
    have hd : idZstd.decompress t b = Except.ok ((), b) := rfl
    simp [decompressFrom, hd, ih]

theorem idZstd_law : ∀ parts blocks : List Bytes,
    blocks.flatten = compressAll idZstd parts →
    decompressAll idZstd blocks = .ok parts.flatten := by
  intro parts blocks h
  unfold decompressAll
  rw [idZstd_decompressFrom, h, idZstd_compressAll]

theorem idBz2_law (b : Bytes) : idBz2.decompress (idBz2.compress b) = .ok b := rfl

/-! ### C6: mode exclusivity -/

/-- C6: for every invocation in which the compress and extract flags are
both set or both unset, the program fails with a diagnostic and a non-zero
exit status before touching the filesystem: the filesystem is unchanged
and no file is read, written, created, or removed. -/
theorem mode_exclusivity (Z : ZstdLib σ τ) (B : Bz2Lib) (T : TarLib)
    (a : Args) (fs : Fs) (h : a.compress = a.extract) :
    (main Z B T a fs).err = some .invalidMode ∧ (main Z B T a fs).fs = fs
    ∧ (main Z B T a fs).tr = [] ∧ (main Z B T a fs).ev = [] := by
  rw [main_invalid_mode Z B T a fs h]
  exact ⟨rfl, rfl, rfl, rfl⟩

/-- Witness for C6 at a concrete invocation with both flags set. -/
theorem mode_exclusivity_witness :
    (true : Bool) = true
    ∧ ((main idZstd idBz2 witTar ⟨true, true, "a.zst", "b", false, false⟩
          [("a.zst", FsNode.file [1])]).err = some .invalidMode
      ∧ (main idZstd idBz2 witTar ⟨true, true, "a.zst", "b", false, false⟩
          [("a.zst", FsNode.file [1])]).fs = [("a.zst", FsNode.file [1])]
      ∧ (main idZstd idBz2 witTar ⟨true, true, "a.zst", "b", false, false⟩
          [("a.zst", FsNode.file [1])]).tr = []
      ∧ (main idZstd idBz2 witTar ⟨true, true, "a.zst", "b", false, false⟩
          [("a.zst", FsNode.file [1])]).ev = []) :=
  ⟨rfl, mode_exclusivity idZstd idBz2 witTar _ _ rfl⟩

/-! ### C8: progress-bar width (corrected) -/

/-- C8 counterexample: at `report(1, 1)` (`done = total`, `total > 0`) the
bar between the brackets holds 31 cells, not 30: the 30 filled cells plus
the pac symbol. -/
theorem pacmanBar_31_cells_at_full :
    (pacmanBar 1 1).length = 31 ∧ ¬(pacmanBar 1 1).length = barWidth := by
  constructor
  · decide
  · decide

/-- C8 (amended): for `total > 0` and `done < total` the bar between the
brackets holds exactly 30 cells; at `done = total` it holds 31 cells (a
full bar plus the pac symbol). -/
theorem pacmanBar_cells (done total : Nat) (h0 : 0 < total) :
    (done < total → (pacmanBar done total).length = barWidth)
    ∧ (done = total → (pacmanBar done total).length = barWidth + 1) := by
  constructor
  · intro hlt
    have hf : barWidth * done / total < barWidth := by
      rw [Nat.div_lt_iff_lt_mul h0]
      simp only [barWidth]
      omega
    simp only [pacmanBar, List.length_append, List.length_replicate,
      List.length_cons, List.length_nil]
    simp only [barWidth] at hf ⊢
    split_ifs with h1 <;> omega
  · intro heq
    subst heq
    have hf : barWidth * done / done = barWidth := Nat.mul_div_cancel _ h0
    simp only [pacmanBar, hf, List.length_append, List.length_replicate,
      List.length_cons, List.length_nil]
    simp only [barWidth]
    norm_num

/-- Witness for C8 (amended) at `report(1, 2)` and `report(2, 2)`. -/
theorem pacmanBar_cells_witness :
    0 < 2 ∧ ((1 < 2 → (pacmanBar 1 2).length = barWidth)
      ∧ (1 = 2 → (pacmanBar 1 2).length = barWidth + 1)) :=
  ⟨by decide, pacmanBar_cells 1 2 (by decide)⟩

/-! ### C9: the Size Inspector -/

/-- C9: `calc_size` returns `0` when the path does not exist, the exact
file size for a regular file, and the sum of the sizes of all regular
files in the tree (directories contributing 0) for a directory. -/
theorem calc_size_spec (fs : Fs) (p : String) :
    (lookupFs fs p = none → calc_size fs p = 0)
    ∧ (∀ d, lookupFs fs p = some (.file d) → calc_size fs p = d.length)
    ∧ (∀ es, lookupFs fs p = some (.dir es) → calc_size fs p = entriesSize es) := by
  refine ⟨fun h => ?_, fun d h => ?_, fun es h => ?_⟩ <;>
    simp [calc_size, h, entriesFiles_sum]

/-- Witness for C9 on a concrete two-level directory. -/
theorem calc_size_spec_witness :
    lookupFs [("d", FsNode.dir witTree)] "d" = some (.dir witTree)
    ∧ calc_size [("d", FsNode.dir witTree)] "d" = entriesSize witTree
    ∧ entriesSize witTree = 3 := by
  refine ⟨rfl, (calc_size_spec [("d", FsNode.dir witTree)] "d").2.2 witTree rfl, ?_⟩
  simp [witTree, entriesSize, nodeSize]

/-! ### C3: shape of the compression direction (corrected) -/

/-- C3 counterexample: on an input one byte longer than the chunk size,
`bz2_compress` reports a single `(n, n)` pair rather than one report per
262144-byte chunk, so the chunk-iterate-report-flush shape does not hold
for both codecs. -/
theorem bz2_not_chunked :
    (bz2_compress_b idBz2 (List.replicate (chunkSize + 1) 0) true).2
      ≠ evSeq 0 (List.replicate (chunkSize + 1) 0).length := by
  intro h
  have h1 : (List.replicate (chunkSize + 1) (0 : Nat)).length = chunkSize + 1 :=
    List.length_replicate ..
  have hc : 0 < chunkSize := by simp [chunkSize]
  have h2 : evSeq 0 (chunkSize + 1) =
      [(chunkSize, chunkSize + 1), (chunkSize + 1, chunkSize + 1)] := by
    rw [evSeq.eq_def, if_pos (by omega)]
    rw [evSeq.eq_def, if_pos (by omega)]
    rw [evSeq.eq_def, if_neg (by omega)]
    have m1 : min (0 + chunkSize) (chunkSize + 1) = chunkSize := by omega
    have m2 : min (0 + chunkSize + chunkSize) (chunkSize + 1) = chunkSize + 1 := by
      omega
    rw [m1, m2]
  rw [h1, h2] at h
  simp [bz2_compress_b, h1] at h

/-- C3 (amended): for every input, zstd compression initializes a fresh
compressor, folds it over the 262144-byte chunks of the input appending
each chunk's compressed bytes, reports `(bytesConsumedSoFar, total)` after
each chunk when progress is on, and ends with an explicit flush drained
into the output; bz2 compression instead compresses in a single one-shot
call and reports a single `(n, n)` pair. -/
theorem compression_pass_shape (Z : ZstdLib σ τ) (B : Bz2Lib) (data : Bytes)
    (p : Bool) :
    zstd_compress_b Z data p =
      (compressAll Z (chunksOf data), if p then evSeq 0 data.length else [])
    ∧ bz2_compress_b B data p =
      (B.compress data, if p then [(data.length, data.length)] else []) :=
  ⟨zstd_compress_b_eq Z data p, rfl⟩

/-! ### C7: progress monotonicity -/

/-- C7: within one codec pass with progress enabled on an input of `n > 0`
bytes, the reported done values are strictly increasing, each at most `n`,
and the final report is exactly `(n, n)`: for the zstd compression pass,
for the zstd decompression pass when it succeeds, for the single-report
bz2 compression pass, and for the single-report bz2 decompression pass
when it succeeds. -/
theorem progress_monotonic (Z : ZstdLib σ τ) (B : Bz2Lib) (data : Bytes)
    (hn : 0 < data.length) :
    (List.Chain' (fun a b => a.1 < b.1) (zstd_compress_b Z data true).2
      ∧ (∀ e ∈ (zstd_compress_b Z data true).2,
          e.1 ≤ data.length ∧ e.2 = data.length)
      ∧ (zstd_compress_b Z data true).2.getLast? = some (data.length, data.length))
    ∧ (∀ out ev, zstd_decompress_b Z data true = .ok (out, ev) →
        List.Chain' (fun a b => a.1 < b.1) ev
        ∧ (∀ e ∈ ev, e.1 ≤ data.length ∧ e.2 = data.length)
        ∧ ev.getLast? = some (data.length, data.length))
    ∧ (List.Chain' (fun a b => a.1 < b.1) (bz2_compress_b B data true).2
      ∧ (∀ e ∈ (bz2_compress_b B data true).2,
          e.1 ≤ data.length ∧ e.2 = data.length)
      ∧ (bz2_compress_b B data true).2.getLast?
          = some (data.length, data.length))
    ∧ (∀ out ev, bz2_decompress_b B data true = .ok (out, ev) →
        List.Chain' (fun a b => a.1 < b.1) ev
        ∧ (∀ e ∈ ev, e.1 ≤ data.length ∧ e.2 = data.length)
        ∧ ev.getLast? = some (data.length, data.length)) := by
  have hev : (zstd_compress_b Z data true).2 = evSeq 0 data.length := by
    rw [zstd_compress_b_eq]
    simp
  refine ⟨⟨?_, ?_, ?_⟩, ?_, ⟨?_, ?_, ?_⟩, ?_⟩
  · rw [hev]
    exact evSeq_chain 0 data.length
  · rw [hev]
    intro e he
    exact ⟨(evSeq_mem _ _ e he).2.1, (evSeq_mem _ _ e he).2.2⟩
  · rw [hev]
    exact evSeq_getLast 0 data.length hn
  · intro out ev h
    rw [zstd_decompress_b_eq] at h
    cases hda : decompressAll Z (chunksOf data) with
    | error e =>
      rw [hda] at h
      simp at h
    | ok rest =>
      rw [hda] at h
      simp only [Except.ok.injEq, Prod.mk.injEq] at h
      obtain ⟨hr, he⟩ := h
      have hev2 : ev = evSeq 0 data.length := by
        rw [← he]
        simp
      subst hev2
      refine ⟨evSeq_chain 0 data.length, ?_, evSeq_getLast 0 data.length hn⟩
      intro e hm
      exact ⟨(evSeq_mem _ _ e hm).2.1, (evSeq_mem _ _ e hm).2.2⟩
  · simp [bz2_compress_b]
  · intro e he
    simp [bz2_compress_b] at he
    simp [he]
  · simp [bz2_compress_b]
  · intro out ev h
    unfold bz2_decompress_b at h
    cases hd : B.decompress data with
    | error e =>
      rw [hd] at h
      simp at h
    | ok res =>
      rw [hd] at h
      simp only [Except.ok.injEq, Prod.mk.injEq] at h
      obtain ⟨hr, he⟩ := h
      have hev2 : ev = [(data.length, data.length)] := by
        rw [← he]
        simp
      subst hev2
      refine ⟨by simp, ?_, by simp⟩
      intro e hm
      simp at hm
      simp [hm]

/-- Witness for C7 at a one-byte input with the identity backends. -/
theorem progress_monotonic_witness :
    0 < ([5] : Bytes).length
    ∧ ((List.Chain' (fun a b => a.1 < b.1) (zstd_compress_b idZstd [5] true).2
        ∧ (∀ e ∈ (zstd_compress_b idZstd [5] true).2,
            e.1 ≤ ([5] : Bytes).length ∧ e.2 = ([5] : Bytes).length)
        ∧ (zstd_compress_b idZstd [5] true).2.getLast?
            = some (([5] : Bytes).length, ([5] : Bytes).length))
      ∧ (∀ out ev, zstd_decompress_b idZstd [5] true = .ok (out, ev) →
          List.Chain' (fun a b => a.1 < b.1) ev
          ∧ (∀ e ∈ ev, e.1 ≤ ([5] : Bytes).length ∧ e.2 = ([5] : Bytes).length)
          ∧ ev.getLast? = some (([5] : Bytes).length, ([5] : Bytes).length))
      ∧ (List.Chain' (fun a b => a.1 < b.1) (bz2_compress_b idBz2 [5] true).2
        ∧ (∀ e ∈ (bz2_compress_b idBz2 [5] true).2,
            e.1 ≤ ([5] : Bytes).length ∧ e.2 = ([5] : Bytes).length)
        ∧ (bz2_compress_b idBz2 [5] true).2.getLast?
            = some (([5] : Bytes).length, ([5] : Bytes).length))
      ∧ (∀ out ev, bz2_decompress_b idBz2 [5] true = .ok (out, ev) →
          List.Chain' (fun a b => a.1 < b.1) ev
          ∧ (∀ e ∈ ev, e.1 ≤ ([5] : Bytes).length ∧ e.2 = ([5] : Bytes).length)
          ∧ ev.getLast? = some (([5] : Bytes).length, ([5] : Bytes).length))) :=
  ⟨by decide, progress_monotonic idZstd idBz2 [5] (by decide)⟩

/-! ### C5: extension gating -/

/-- C5: every invocation whose compressed-artifact extension (target's
when compressing, source's when extracting) is not `.zst` or `.bz2` fails
with a diagnostic and non-zero exit status — also when the bad extension
sits behind a valid `.tar` outer suffix — and no filesystem mutation
occurs. -/
theorem extension_gating (Z : ZstdLib σ τ) (B : Bz2Lib) (T : TarLib)
    (a : Args) (fs : Fs)
    (hext : ¬(artifactExt a = ".zst" ∨ artifactExt a = ".bz2")) :
    (main Z B T a fs).err.isSome = true ∧ (main Z B T a fs).fs = fs
    ∧ (main Z B T a fs).tr = [] ∧ (main Z B T a fs).ev = [] := by
  by_cases hm : a.compress = a.extract
  · rw [main_invalid_mode Z B T a fs hm]
    exact ⟨rfl, rfl, rfl, rfl⟩
  · unfold artifactExt at hext
    have hmain : main Z B T a fs = ⟨fs, some .unsupportedFormat, [], []⟩ := by
      simp only [main]
      rw [if_neg hm, if_pos hext]
    rw [hmain]
    exact ⟨rfl, rfl, rfl, rfl⟩

/-- Witness for C5: extracting `name.tar.gz` fails although the outer
`.tar` suffix is valid. -/
theorem extension_gating_witness :
    ¬(artifactExt ⟨false, true, "name.tar.gz", "out", false, false⟩ = ".zst"
      ∨ artifactExt ⟨false, true, "name.tar.gz", "out", false, false⟩ = ".bz2")
    ∧ ((main idZstd idBz2 witTar ⟨false, true, "name.tar.gz", "out", false, false⟩
          [("name.tar.gz", FsNode.file [1])]).err.isSome = true
      ∧ (main idZstd idBz2 witTar ⟨false, true, "name.tar.gz", "out", false, false⟩
          [("name.tar.gz", FsNode.file [1])]).fs = [("name.tar.gz", FsNode.file [1])]
      ∧ (main idZstd idBz2 witTar ⟨false, true, "name.tar.gz", "out", false, false⟩
          [("name.tar.gz", FsNode.file [1])]).tr = []
      ∧ (main idZstd idBz2 witTar ⟨false, true, "name.tar.gz", "out", false, false⟩
          [("name.tar.gz", FsNode.file [1])]).ev = []) :=
  ⟨by decide, extension_gating idZstd idBz2 witTar _ _ (by decide)⟩

/-! ### C4: directory compression requires a bundle-shaped target -/

/-- C4: every compress-mode invocation whose source is a directory and
whose target does not carry the double-suffix bundle form (`.tar` outer
suffix followed by a codec suffix) fails with a diagnostic and non-zero
exit status before creating any file: the filesystem is unchanged and the
trace and report list are empty. -/
theorem dir_requires_bundle_target (Z : ZstdLib σ τ) (B : Bz2Lib) (T : TarLib)
    (fs : Fs) (srcN dstN : String) (bm pr : Bool)
    (hdir : isDirFs fs srcN = true)
    (hnb : ¬(isTarName (pathName dstN) = true
        ∧ (suffixOf (pathName dstN) = ".zst" ∨ suffixOf (pathName dstN) = ".bz2"))) :
    (main Z B T ⟨true, false, srcN, dstN, bm, pr⟩ fs).err.isSome = true
    ∧ (main Z B T ⟨true, false, srcN, dstN, bm, pr⟩ fs).fs = fs
    ∧ (main Z B T ⟨true, false, srcN, dstN, bm, pr⟩ fs).tr = []
    ∧ (main Z B T ⟨true, false, srcN, dstN, bm, pr⟩ fs).ev = [] := by
  by_cases hext : suffixOf (pathName dstN) = ".zst" ∨ suffixOf (pathName dstN) = ".bz2"
  · have hnt : isTarName (pathName dstN) = false := by
      cases hq : isTarName (pathName dstN)
      · rfl
      · exact absurd ⟨hq, hext⟩ hnb
    rcases hext with h | h <;>
      simp [main, h, hdir, hnt]
  · simp [main, not_or.mp hext]

/-- Witness for C4: compressing a directory to a plain `.zst` target. -/
theorem dir_requires_bundle_target_witness :
    isDirFs [("d", FsNode.dir witTree)] "d" = true
    ∧ ¬(isTarName (pathName "out.zst") = true
        ∧ (suffixOf (pathName "out.zst") = ".zst" ∨ suffixOf (pathName "out.zst") = ".bz2"))
    ∧ ((main idZstd idBz2 witTar ⟨true, false, "d", "out.zst", false, false⟩
          [("d", FsNode.dir witTree)]).err.isSome = true
      ∧ (main idZstd idBz2 witTar ⟨true, false, "d", "out.zst", false, false⟩
          [("d", FsNode.dir witTree)]).fs = [("d", FsNode.dir witTree)]
      ∧ (main idZstd idBz2 witTar ⟨true, false, "d", "out.zst", false, false⟩
          [("d", FsNode.dir witTree)]).tr = []
      ∧ (main idZstd idBz2 witTar ⟨true, false, "d", "out.zst", false, false⟩
          [("d", FsNode.dir witTree)]).ev = []) :=
  ⟨rfl, by decide,
    dir_requires_bundle_target idZstd idBz2 witTar _ "d" "out.zst" false false
      rfl (by decide)⟩

/-! ### Characterization of full runs -/

theorem tar_build_f_eq (T : TarLib) (fs : Fs) (folder tarPath : String)
    (t : List (String × FsNode)) (h : lookupFs fs folder = some (.dir t)) :
    tar_build_f T fs folder tarPath
      = ⟨setFs fs tarPath (.file (T.enc (pathName folder) t)), none, [],
         [.tarAdd folder tarPath]⟩ := by
  simp [tar_build_f, h]

theorem tar_unpack_f_eq (T : TarLib) (fs : Fs) (tarPath destDir : String)
    (data : Bytes) (entries : List (String × FsNode))
    (hnone : lookupFs fs destDir = none)
    (hne : tarPath ≠ destDir)
    (hdata : lookupFs fs tarPath = some (.file data))
    (hdec : T.dec data = .ok entries) :
    tar_unpack_f T fs tarPath destDir
      = ⟨setFs (setFs fs destDir (.dir [])) destDir (.dir (mergeEntries [] entries)),
         none, [], [.makedirs destDir, .readF tarPath, .tarExtract tarPath destDir]⟩ := by
  unfold tar_unpack_f
  rw [hnone]
  have h1 : readBytesFs (setFs fs destDir (.dir [])) tarPath = .ok data := by
    simp [readBytesFs, lookupFs_setFs_ne fs destDir tarPath _ hne, hdata]
  simp only [h1, hdec]

/-- A compress run on a regular file with a recognized target extension:
the compressed bytes are written at the target and nothing else happens. -/
theorem main_compress_file (Z : ZstdLib σ τ) (B : Bz2Lib) (T : TarLib)
    (fs : Fs) (srcN dstN : String) (bm pr : Bool) (data : Bytes)
    (hsrc : lookupFs fs srcN = some (.file data))
    (hext : suffixOf (pathName dstN) = ".zst" ∨ suffixOf (pathName dstN) = ".bz2") :
    main Z B T ⟨true, false, srcN, dstN, bm, pr⟩ fs
      = ⟨setFs fs dstN (.file (codecCompress Z B (suffixOf (pathName dstN)) data)),
         none, if pr then codecEvents (suffixOf (pathName dstN)) data.length else [],
         [.readF srcN, .writeF dstN]⟩ := by
  have hisdir : isDirFs fs srcN = false := by simp [isDirFs, hsrc]
  rcases hext with h | h
  · simp only [main]
    simp [h, hisdir]
    rw [zstd_compress_f_eq Z fs srcN dstN pr data hsrc]
    simp [codecCompress, codecEvents, h]
  · have hneq : ¬(suffixOf (pathName dstN) = ".zst") := by
      rw [h]
      decide
    simp only [main]
    simp [h, hneq, hisdir]
    rw [bz2_compress_f_eq B fs srcN dstN pr data hsrc]
    simp [codecCompress, codecEvents, h, hneq]

/-- An extract run on a source without the bundle name form and with a
recognized extension: the decompressed bytes are written directly at the
target. -/
theorem main_extract_direct (Z : ZstdLib σ τ) (B : Bz2Lib) (T : TarLib)
    (fs : Fs) (srcN dstN : String) (bm pr : Bool) (data y : Bytes)
    (hsrc : lookupFs fs srcN = some (.file data))
    (hnt : isTarName (pathName srcN) = false)
    (hext : suffixOf (pathName srcN) = ".zst" ∨ suffixOf (pathName srcN) = ".bz2")
    (hy : codecDecompress Z B (suffixOf (pathName srcN)) data = .ok y) :
    main Z B T ⟨false, true, srcN, dstN, bm, pr⟩ fs
      = ⟨setFs fs dstN (.file y), none,
         if pr then codecEvents (suffixOf (pathName srcN)) data.length else [],
         [.readF srcN, .writeF dstN]⟩ := by
  rcases hext with h | h
  · rw [h] at hy
    simp only [codecDecompress, if_pos rfl] at hy
    simp only [main]
    simp [h, hnt]
    rw [zstd_decompress_f_eq Z fs srcN dstN pr data y hsrc hy]
    simp [codecEvents, h]
  · have hneq : ¬(suffixOf (pathName srcN) = ".zst") := by
      rw [h]
      decide
    rw [h] at hy
    simp only [codecDecompress] at hy
    rw [if_neg (by decide)] at hy
    simp only [main]
    simp [h, hnt, hneq]
    rw [bz2_decompress_f_eq B fs srcN dstN pr data y hsrc hy]
    simp [codecEvents, h, hneq]

/-- A compress run on a directory with a bundle-shaped target: the tar
bytes are built at `tmp_data.tar`, compressed into the target, and the
transient tar file is removed. -/
theorem main_compress_dir (Z : ZstdLib σ τ) (B : Bz2Lib) (T : TarLib)
    (fs : Fs) (srcN dstN : String) (bm pr : Bool)
    (t : List (String × FsNode))
    (hsrc : lookupFs fs srcN = some (.dir t))
    (ht : isTarName (pathName dstN) = true)
    (hext : suffixOf (pathName dstN) = ".zst" ∨ suffixOf (pathName dstN) = ".bz2")
    (hd2 : dstN ≠ "tmp_data.tar") :
    main Z B T ⟨true, false, srcN, dstN, bm, pr⟩ fs
      = ⟨removeFs
           (setFs (setFs fs "tmp_data.tar" (.file (T.enc (pathName srcN) t))) dstN
             (.file (codecCompress Z B (suffixOf (pathName dstN))
               (T.enc (pathName srcN) t))))
           "tmp_data.tar",
         none,
         if pr then codecEvents (suffixOf (pathName dstN))
           (T.enc (pathName srcN) t).length else [],
         [.tarAdd srcN "tmp_data.tar", .readF "tmp_data.tar", .writeF dstN,
          .removeF "tmp_data.tar"]⟩ := by
  have hisdir : isDirFs fs srcN = true := by simp [isDirFs, hsrc]
  have htb := tar_build_f_eq T fs srcN "tmp_data.tar" t hsrc
  have hread : lookupFs (setFs fs "tmp_data.tar" (.file (T.enc (pathName srcN) t)))
      "tmp_data.tar" = some (.file (T.enc (pathName srcN) t)) :=
    lookupFs_setFs_self ..
  have hex : existsFs
      (setFs (setFs fs "tmp_data.tar" (.file (T.enc (pathName srcN) t))) dstN
        (.file (codecCompress Z B (suffixOf (pathName dstN)) (T.enc (pathName srcN) t))))
      "tmp_data.tar" = true := by
    unfold existsFs
    rw [lookupFs_setFs_ne _ _ _ _ (Ne.symm hd2), hread]
    rfl
  rcases hext with h | h
  · simp only [main]
    simp [h, hisdir, ht, htb]
    rw [zstd_compress_f_eq Z _ "tmp_data.tar" dstN pr _ hread]
    have hex2 := hex
    simp only [codecCompress, if_pos h] at hex2 ⊢
    simp [codecCompress, codecEvents, h] at hex2 ⊢
    simp [hex2]
  · have hneq : ¬(suffixOf (pathName dstN) = ".zst") := by
      rw [h]
      decide
    simp only [main]
    simp [h, hneq, hisdir, ht, htb]
    rw [bz2_compress_f_eq B _ "tmp_data.tar" dstN pr _ hread]
    have hex2 := hex
    simp only [codecCompress, if_neg hneq] at hex2 ⊢
    simp [codecCompress, codecEvents, h, hneq] at hex2 ⊢
    simp [hex2]

/-- An extract run on a bundle-shaped source with a recognized extension
and a fresh destination: the decompressed tar bytes land at
`tmp_unpack.tar`, are unbundled beneath the destination, and the transient
tar file is removed. -/
theorem main_extract_bundle (Z : ZstdLib σ τ) (B : Bz2Lib) (T : TarLib)
    (fs : Fs) (srcN dstN : String) (bm pr : Bool)
    (data tb : Bytes) (entries : List (String × FsNode))
    (hsrc : lookupFs fs srcN = some (.file data))
    (ht : isTarName (pathName srcN) = true)
    (hext : suffixOf (pathName srcN) = ".zst" ∨ suffixOf (pathName srcN) = ".bz2")
    (hy : codecDecompress Z B (suffixOf (pathName srcN)) data = .ok tb)
    (hdec : T.dec tb = .ok entries)
    (hdne : dstN ≠ "tmp_unpack.tar")
    (hdfresh : lookupFs fs dstN = none) :
    main Z B T ⟨false, true, srcN, dstN, bm, pr⟩ fs
      = ⟨removeFs
           (setFs (setFs (setFs fs "tmp_unpack.tar" (.file tb)) dstN (.dir []))
             dstN (.dir (mergeEntries [] entries)))
           "tmp_unpack.tar",
         none,
         if pr then codecEvents (suffixOf (pathName srcN)) data.length else [],
         [.readF srcN, .writeF "tmp_unpack.tar", .makedirs dstN,
          .readF "tmp_unpack.tar", .tarExtract "tmp_unpack.tar" dstN,
          .removeF "tmp_unpack.tar"]⟩ := by
  have hfresh2 : lookupFs (setFs fs "tmp_unpack.tar" (.file tb)) dstN = none := by
    rw [lookupFs_setFs_ne _ _ _ _ hdne, hdfresh]
  have hread2 : lookupFs (setFs fs "tmp_unpack.tar" (.file tb)) "tmp_unpack.tar"
      = some (.file tb) := lookupFs_setFs_self ..
  have hun := tar_unpack_f_eq T (setFs fs "tmp_unpack.tar" (.file tb))
    "tmp_unpack.tar" dstN tb entries hfresh2 (Ne.symm hdne) hread2 hdec
  rcases hext with h | h
  · rw [h] at hy
    simp only [codecDecompress, if_pos rfl] at hy
    simp only [main]
    simp [h, ht]
    rw [zstd_decompress_f_eq Z fs srcN "tmp_unpack.tar" pr data tb hsrc hy]
    simp [hun, codecEvents, h]
  · have hneq : ¬(suffixOf (pathName srcN) = ".zst") := by
      rw [h]
      decide
    rw [h] at hy
    simp only [codecDecompress] at hy
    rw [if_neg (by decide)] at hy
    simp only [main]
    simp [h, ht, hneq]
    rw [bz2_decompress_f_eq B fs srcN "tmp_unpack.tar" pr data tb hsrc hy]
    simp [hun, codecEvents, h, hneq]

/-! ### C10: when the unbundling step runs -/

theorem zstd_decompress_f_no_tarExtract (Z : ZstdLib σ τ) (fs : Fs)
    (src dst : String) (p : Bool) (tp dd : String) :
    Op.tarExtract tp dd ∉ (zstd_decompress_f Z fs src dst p).tr := by
  unfold zstd_decompress_f
  cases h1 : readBytesFs fs src with
  | error e => simp
  | ok data =>
    simp only [h1]
    cases h2 : zstd_decompress_b Z data p with
    | error e => simp [h2]
    | ok r => simp [h2]

theorem bz2_decompress_f_no_tarExtract (B : Bz2Lib) (fs : Fs)
    (src dst : String) (p : Bool) (tp dd : String) :
    Op.tarExtract tp dd ∉ (bz2_decompress_f B fs src dst p).tr := by
  unfold bz2_decompress_f
  cases h1 : readBytesFs fs src with
  | error e => simp
  | ok data =>
    simp only [h1]
    cases h2 : bz2_decompress_b B data p with
    | error e => simp [h2]
    | ok r => simp [h2]

theorem tar_unpack_f_ok_tr (T : TarLib) (fs : Fs) (tarPath destDir : String)
    (h : (tar_unpack_f T fs tarPath destDir).err = none) :
    (tar_unpack_f T fs tarPath destDir).tr
      = [.makedirs destDir, .readF tarPath, .tarExtract tarPath destDir] := by
  unfold tar_unpack_f at h ⊢
  cases h0 : lookupFs fs destDir with
  | none =>
    simp only [h0] at h ⊢
    cases h1 : readBytesFs (setFs fs destDir (.dir [])) tarPath with
    | error e => simp [h1] at h
    | ok data =>
      simp only [h1] at h ⊢
      cases h2 : T.dec data with
      | error e => simp [h2] at h
      | ok entries => simp [h2]
  | some node =>
    cases node with
    | file d => simp [h0] at h
    | dir t0 =>
      simp only [h0] at h ⊢
      cases h1 : readBytesFs fs tarPath with
      | error e => simp [h1] at h
      | ok data =>
        simp only [h1] at h ⊢
        cases h2 : T.dec data with
        | error e => simp [h2] at h
        | ok entries => simp [h2]

/-- C10: in extract mode, the unbundling step runs only when the source
name has exactly two dot-suffixes of which the first is `.tar` (and on a
successful run with such a source it does run); for every other source —
e.g. `a.b.tar.zst`, which has three suffixes — the decompressed bytes are
written directly to the target as a single file, with no unbundling step
and no transient artifact created. -/
theorem extract_unbundle_iff (Z : ZstdLib σ τ) (B : Bz2Lib) (T : TarLib)
    (fs : Fs) (srcN dstN : String) (bm pr : Bool) :
    (∀ tp dd, Op.tarExtract tp dd
        ∈ (main Z B T ⟨false, true, srcN, dstN, bm, pr⟩ fs).tr →
      isTarName (pathName srcN) = true)
    ∧ (isTarName (pathName srcN) = true →
        (main Z B T ⟨false, true, srcN, dstN, bm, pr⟩ fs).err = none →
        Op.tarExtract "tmp_unpack.tar" dstN
          ∈ (main Z B T ⟨false, true, srcN, dstN, bm, pr⟩ fs).tr)
    ∧ (∀ data y, lookupFs fs srcN = some (.file data) →
        isTarName (pathName srcN) = false →
        (suffixOf (pathName srcN) = ".zst" ∨ suffixOf (pathName srcN) = ".bz2") →
        codecDecompress Z B (suffixOf (pathName srcN)) data = .ok y →
        main Z B T ⟨false, true, srcN, dstN, bm, pr⟩ fs
          = ⟨setFs fs dstN (.file y), none,
             if pr then codecEvents (suffixOf (pathName srcN)) data.length else [],
             [.readF srcN, .writeF dstN]⟩) := by
  refine ⟨?_, ?_, ?_⟩
  · intro tp dd hmem
    by_cases ht : isTarName (pathName srcN) = true
    · exact ht
    · exfalso
      have hnt : isTarName (pathName srcN) = false := by
        cases hq : isTarName (pathName srcN)
        · rfl
        · exact absurd hq ht
      by_cases hx : suffixOf (pathName srcN) = ".zst"
        ∨ suffixOf (pathName srcN) = ".bz2"
      · rcases hx with h | h <;>
          simp only [main] at hmem <;>
          simp [h, hnt] at hmem <;>
          first
            | exact zstd_decompress_f_no_tarExtract Z fs srcN dstN pr tp dd hmem
            | exact bz2_decompress_f_no_tarExtract B fs srcN dstN pr tp dd hmem
      · simp only [main] at hmem
        simp [not_or.mp hx] at hmem
  · intro ht hsucc
    by_cases hx : suffixOf (pathName srcN) = ".zst"
      ∨ suffixOf (pathName srcN) = ".bz2"
    · rcases hx with h | h <;>
        simp only [main] at hsucc ⊢ <;>
        simp only [h, ht] at hsucc ⊢ <;>
        simp at hsucc ⊢ <;>
        [skip; skip] <;>
        first
        | (cases hs1 : (zstd_decompress_f Z fs srcN "tmp_unpack.tar" pr).err with
          | some e => simp [hs1] at hsucc
          | none =>
            simp only [hs1] at hsucc ⊢
            cases hs2 : (tar_unpack_f T
                (zstd_decompress_f Z fs srcN "tmp_unpack.tar" pr).fs
                "tmp_unpack.tar" dstN).err with
            | some e => simp [hs2] at hsucc
            | none =>
              simp only [hs2]
              rw [tar_unpack_f_ok_tr _ _ _ _ hs2]
              simp)
        | (cases hs1 : (bz2_decompress_f B fs srcN "tmp_unpack.tar" pr).err with
          | some e => simp [hs1] at hsucc
          | none =>
            simp only [hs1] at hsucc ⊢
            cases hs2 : (tar_unpack_f T
                (bz2_decompress_f B fs srcN "tmp_unpack.tar" pr).fs
                "tmp_unpack.tar" dstN).err with
            | some e => simp [hs2] at hsucc
            | none =>
              simp only [hs2]
              rw [tar_unpack_f_ok_tr _ _ _ _ hs2]
              simp)
    · exfalso
      simp only [main] at hsucc
      simp [not_or.mp hx] at hsucc
  · intro data y hsrc hnt hx hy
    rcases hx with h | h
    · rw [h] at hy
      simp only [codecDecompress, if_pos rfl] at hy
      simp only [main]
      simp [h, hnt]
      rw [zstd_decompress_f_eq Z fs srcN dstN pr data y hsrc hy]
      simp [codecEvents, h]
    · have hz : ¬(suffixOf (pathName srcN) = ".zst") := by
        intro hc
        rw [hc] at h
        simp at h
      rw [h] at hy
      simp only [codecDecompress] at hy
      rw [if_neg (by simp)] at hy
      simp only [main]
      simp [h, hnt, hz]
      rw [bz2_decompress_f_eq B fs srcN dstN pr data y hsrc hy]
      simp [codecEvents, h, hz]

/-! ### C1: round-trip -/

/-- C1: round-trip. Under the codec round-trip laws (the backends are out
of scope), compressing a regular file to a non-bundle target, or a
directory to a bundle-shaped target — for either codec extension and for
every combination of the benchmark/progress flags on the two runs — and
then extracting the compressed target restores the original contents
bit-for-bit; the produced filesystems are flag-independent expressions. -/
theorem roundtrip (Z : ZstdLib σ τ) (B : Bz2Lib) (T : TarLib)
    (hz : ∀ parts blocks : List Bytes, blocks.flatten = compressAll Z parts →
      decompressAll Z blocks = .ok parts.flatten)
    (hb : ∀ b, B.decompress (B.compress b) = .ok b)
    (fs : Fs) (srcN dstN outN : String) (b1 p1 b2 p2 : Bool)
    (hext : suffixOf (pathName dstN) = ".zst" ∨ suffixOf (pathName dstN) = ".bz2") :
    (∀ data, lookupFs fs srcN = some (.file data) →
      isTarName (pathName dstN) = false →
      ((main Z B T ⟨true, false, srcN, dstN, b1, p1⟩ fs).err = none
        ∧ (main Z B T ⟨true, false, srcN, dstN, b1, p1⟩ fs).fs
            = setFs fs dstN
                (.file (codecCompress Z B (suffixOf (pathName dstN)) data))
        ∧ (main Z B T ⟨false, true, dstN, outN, b2, p2⟩
            (main Z B T ⟨true, false, srcN, dstN, b1, p1⟩ fs).fs).err = none
        ∧ (main Z B T ⟨false, true, dstN, outN, b2, p2⟩
            (main Z B T ⟨true, false, srcN, dstN, b1, p1⟩ fs).fs).fs
            = setFs (main Z B T ⟨true, false, srcN, dstN, b1, p1⟩ fs).fs outN
                (.file data)
        ∧ lookupFs (main Z B T ⟨false, true, dstN, outN, b2, p2⟩
            (main Z B T ⟨true, false, srcN, dstN, b1, p1⟩ fs).fs).fs outN
            = some (.file data)))
    ∧ (∀ t, lookupFs fs srcN = some (.dir t) →
      isTarName (pathName dstN) = true →
      T.dec (T.enc (pathName srcN) t) = .ok [(pathName srcN, .dir t)] →
      srcN ≠ "tmp_data.tar" →
      dstN ≠ srcN →
      outN ≠ dstN →
      outN ≠ "tmp_data.tar" →
      outN ≠ "tmp_unpack.tar" →
      lookupFs fs outN = none →
      ((main Z B T ⟨true, false, srcN, dstN, b1, p1⟩ fs).err = none
        ∧ (main Z B T ⟨false, true, dstN, outN, b2, p2⟩
            (main Z B T ⟨true, false, srcN, dstN, b1, p1⟩ fs).fs).err = none
        ∧ lookupFs (main Z B T ⟨false, true, dstN, outN, b2, p2⟩
            (main Z B T ⟨true, false, srcN, dstN, b1, p1⟩ fs).fs).fs outN
            = some (.dir [(pathName srcN, .dir t)]))) := by
  have hdec : ∀ b : Bytes, codecDecompress Z B (suffixOf (pathName dstN))
      (codecCompress Z B (suffixOf (pathName dstN)) b) = .ok b := by
    intro b
    rcases hext with h | h
    · rw [h]
      simp only [codecCompress, codecDecompress, if_pos rfl]
      exact decompressAll_compressAll Z hz b
    · rw [h]
      simp only [codecCompress, codecDecompress]
      rw [if_neg (by decide), if_neg (by decide)]
      exact hb b
  constructor
  · intro data hsrc hnt
    have hr1 := main_compress_file Z B T fs srcN dstN b1 p1 data hsrc hext
    have hr2 := main_extract_direct Z B T
      (setFs fs dstN (.file (codecCompress Z B (suffixOf (pathName dstN)) data)))
      dstN outN b2 p2 _ data (lookupFs_setFs_self ..) hnt hext (hdec data)
    simp only [hr1]
    simp only [hr2]
    exact ⟨trivial, trivial, trivial, trivial, lookupFs_setFs_self ..⟩
  · intro t hsrc ht htar hs1 hds hod hotd hotu hfresh
    have hd2 : dstN ≠ "tmp_data.tar" := by
      intro hq
      subst hq
      revert hext
      decide
    have hdu : dstN ≠ "tmp_unpack.tar" := by
      intro hq
      subst hq
      revert hext
      decide
    have hr1 := main_compress_dir Z B T fs srcN dstN b1 p1 t hsrc ht hext hd2
    -- the filesystem after the compress run
    set tb := T.enc (pathName srcN) t with htb
    set comp := codecCompress Z B (suffixOf (pathName dstN)) tb with hcomp
    have hlook2 : lookupFs
        (removeFs (setFs (setFs fs "tmp_data.tar" (.file tb)) dstN (.file comp))
          "tmp_data.tar") dstN = some (.file comp) := by
      rw [lookupFs_removeFs_ne _ _ _ hd2, lookupFs_setFs_self]
    have hfresh2 : lookupFs
        (removeFs (setFs (setFs fs "tmp_data.tar" (.file tb)) dstN (.file comp))
          "tmp_data.tar") outN = none := by
      rw [lookupFs_removeFs_ne _ _ _ hotd, lookupFs_setFs_ne _ _ _ _ hod,
        lookupFs_setFs_ne _ _ _ _ hotd, hfresh]
    have hr2 := main_extract_bundle Z B T
      (removeFs (setFs (setFs fs "tmp_data.tar" (.file tb)) dstN (.file comp))
        "tmp_data.tar")
      dstN outN b2 p2 comp tb [(pathName srcN, .dir t)]
      hlook2 ht hext (hdec tb) htar hotu hfresh2
    simp only [hr1]
    simp only [hr2]
    refine ⟨trivial, trivial, ?_⟩
    rw [lookupFs_removeFs_ne _ _ _ hotu, lookupFs_setFs_self]
    rfl

/-- Witness for C1: a file round-trip through `f.zst` (zstd, mixed flags)
and a directory round-trip through `d.tar.bz2` (bz2, mixed flags) on a
concrete filesystem, with the identity backends and a tar backend correct
on the witness tree. -/
theorem roundtrip_witness :
    (suffixOf (pathName "f.zst") = ".zst" ∨ suffixOf (pathName "f.zst") = ".bz2")
    ∧ lookupFs witFs "f.txt" = some (.file [1, 2])
    ∧ isTarName (pathName "f.zst") = false
    ∧ lookupFs (main idZstd idBz2 witTar ⟨false, true, "f.zst", "out", true, true⟩
        (main idZstd idBz2 witTar ⟨true, false, "f.txt", "f.zst", false, true⟩
          witFs).fs).fs "out"
        = some (.file [1, 2])
    ∧ (suffixOf (pathName "d.tar.bz2") = ".zst"
        ∨ suffixOf (pathName "d.tar.bz2") = ".bz2")
    ∧ lookupFs witFs "d" = some (.dir witTree)
    ∧ isTarName (pathName "d.tar.bz2") = true
    ∧ lookupFs (main idZstd idBz2 witTar ⟨false, true, "d.tar.bz2", "out2", true, false⟩
        (main idZstd idBz2 witTar ⟨true, false, "d", "d.tar.bz2", true, true⟩
          witFs).fs).fs "out2"
        = some (.dir [(pathName "d", .dir witTree)]) :=
  ⟨Or.inl (by decide), rfl, by decide,
    ((roundtrip idZstd idBz2 witTar idZstd_law idBz2_law witFs
        "f.txt" "f.zst" "out" false true true true
        (Or.inl (by decide))).1 [1, 2] rfl (by decide)).2.2.2.2,
    Or.inr (by decide), rfl, by decide,
    ((roundtrip idZstd idBz2 witTar idZstd_law idBz2_law witFs
        "d" "d.tar.bz2" "out2" true true true false
        (Or.inr (by decide))).2 witTree rfl (by decide) rfl
        (by decide) (by decide) (by decide) (by decide) (by decide) rfl).2.2⟩

/-! ### C2: transient-artifact cleanup (corrected) -/

/-- C2 counterexample: extracting `x.tar.bz2` creates the transient
`tmp_unpack.tar` (the trace holds its write); when the bundle step then
fails because the decompressed bytes are not a tar archive, the
invocation ends in error with the artifact still on disk — cleanup is not
unconditional. -/
theorem transient_left_on_bundle_failure :
    ((main idZstd idBz2 badTar ⟨false, true, "x.tar.bz2", "out", false, false⟩
        [("x.tar.bz2", FsNode.file [1])]).err.isSome = true)
    ∧ (Op.writeF "tmp_unpack.tar"
        ∈ (main idZstd idBz2 badTar ⟨false, true, "x.tar.bz2", "out", false, false⟩
            [("x.tar.bz2", FsNode.file [1])]).tr)
    ∧ ((lookupFs (main idZstd idBz2 badTar
          ⟨false, true, "x.tar.bz2", "out", false, false⟩
          [("x.tar.bz2", FsNode.file [1])]).fs "tmp_unpack.tar").isSome = true) := by
  refine ⟨?_, ?_, ?_⟩ <;> decide

/-- C2 (amended): after every invocation that created a transient tar
artifact and **succeeded**, the artifact's path no longer exists; when a
codec or bundle step fails after the artifact was created, the artifact
can be left behind (cleanup runs on the success path only). -/
theorem transient_removed_on_success (Z : ZstdLib σ τ) (B : Bz2Lib) (T : TarLib)
    (a : Args) (fs : Fs) (h : (main Z B T a fs).err = none) :
    (a.compress = true → isDirFs fs a.source = true →
      lookupFs (main Z B T a fs).fs "tmp_data.tar" = none)
    ∧ (a.compress = false → isTarName (pathName a.source) = true →
      lookupFs (main Z B T a fs).fs "tmp_unpack.tar" = none) := by
  by_cases hm : a.compress = a.extract
  · rw [main_invalid_mode Z B T a fs hm] at h
    simp at h
  · constructor
    · intro hc hdir
      have he : a.extract = false := by
        cases hx : a.extract
        · rfl
        · rw [hc, hx] at hm
          exact absurd rfl hm
      by_cases hx : suffixOf (pathName a.target) = ".zst"
          ∨ suffixOf (pathName a.target) = ".bz2"
      · rcases hx with hxx | hxx
        · cases hb2 : isTarName (pathName a.target) with
          | false =>
            exfalso
            simp only [main] at h
            simp [hc, he, hxx, hb2, hdir] at h
          | true =>
            simp only [main] at h ⊢
            simp [hc, he, hxx, hb2, hdir] at h ⊢
            cases h1 : (tar_build_f T fs a.source "tmp_data.tar").err with
            | some e => simp [h1] at h
            | none =>
              simp only [h1] at h ⊢
              cases h2 : (zstd_compress_f Z (tar_build_f T fs a.source "tmp_data.tar").fs
                  "tmp_data.tar" a.target a.progress).err with
              | some e => simp [h2] at h
              | none =>
                simp only [h2] at h ⊢
                by_cases h3 : existsFs (zstd_compress_f Z
                    (tar_build_f T fs a.source "tmp_data.tar").fs
                    "tmp_data.tar" a.target a.progress).fs "tmp_data.tar" = true
                · simp [h3, lookupFs_removeFs_self]
                · cases hlk : lookupFs (zstd_compress_f Z
                      (tar_build_f T fs a.source "tmp_data.tar").fs
                      "tmp_data.tar" a.target a.progress).fs "tmp_data.tar" with
                  | some v =>
                    exfalso
                    apply h3
                    simp [existsFs, hlk]
                  | none =>
                    simp [h3]
                    exact hlk
        · cases hb2 : isTarName (pathName a.target) with
          | false =>
            exfalso
            simp only [main] at h
            simp [hc, he, hxx, hb2, hdir] at h
          | true =>
            simp only [main] at h ⊢
            simp [hc, he, hxx, hb2, hdir] at h ⊢
            cases h1 : (tar_build_f T fs a.source "tmp_data.tar").err with
            | some e => simp [h1] at h
            | none =>
              simp only [h1] at h ⊢
              cases h2 : (bz2_compress_f B (tar_build_f T fs a.source "tmp_data.tar").fs
                  "tmp_data.tar" a.target a.progress).err with
              | some e => simp [h2] at h
              | none =>
                simp only [h2] at h ⊢
                by_cases h3 : existsFs (bz2_compress_f B
                    (tar_build_f T fs a.source "tmp_data.tar").fs
                    "tmp_data.tar" a.target a.progress).fs "tmp_data.tar" = true
                · simp [h3, lookupFs_removeFs_self]
                · cases hlk : lookupFs (bz2_compress_f B
                      (tar_build_f T fs a.source "tmp_data.tar").fs
                      "tmp_data.tar" a.target a.progress).fs "tmp_data.tar" with
                  | some v =>
                    exfalso
                    apply h3
                    simp [existsFs, hlk]
                  | none =>
                    simp [h3]
                    exact hlk
      · exfalso
        simp only [main] at h
        simp [hc, he, not_or.mp hx] at h
    · intro hc ht
      have he : a.extract = true := by
        cases hx : a.extract
        · rw [hc, hx] at hm
          exact absurd rfl hm
        · rfl
      by_cases hx : suffixOf (pathName a.source) = ".zst"
          ∨ suffixOf (pathName a.source) = ".bz2"
      · rcases hx with hxx | hxx
        · simp only [main] at h ⊢
          simp [hc, he, hxx, ht] at h ⊢
          cases h1 : (zstd_decompress_f Z fs a.source "tmp_unpack.tar" a.progress).err with
          | some e => simp [h1] at h
          | none =>
            simp only [h1] at h ⊢
            cases h2 : (tar_unpack_f T
                (zstd_decompress_f Z fs a.source "tmp_unpack.tar" a.progress).fs
                "tmp_unpack.tar" a.target).err with
            | some e => simp [h2] at h
            | none => simp [h2, lookupFs_removeFs_self]
        · simp only [main] at h ⊢
          simp [hc, he, hxx, ht] at h ⊢
          cases h1 : (bz2_decompress_f B fs a.source "tmp_unpack.tar" a.progress).err with
          | some e => simp [h1] at h
          | none =>
            simp only [h1] at h ⊢
            cases h2 : (tar_unpack_f T
                (bz2_decompress_f B fs a.source "tmp_unpack.tar" a.progress).fs
                "tmp_unpack.tar" a.target).err with
            | some e => simp [h2] at h
            | none => simp [h2, lookupFs_removeFs_self]
      · exfalso
        simp only [main] at h
        simp [hc, he, not_or.mp hx] at h

/-- Witness for C2 (amended): a successful directory compression through
bz2 ends with `tmp_data.tar` absent. -/
theorem transient_removed_on_success_witness :
    (main idZstd idBz2 witTar ⟨true, false, "d", "d.tar.bz2", false, false⟩
        [("d", FsNode.dir witTree)]).err = none
    ∧ (true : Bool) = true
    ∧ isDirFs [("d", FsNode.dir witTree)] "d" = true
    ∧ lookupFs (main idZstd idBz2 witTar ⟨true, false, "d", "d.tar.bz2", false, false⟩
        [("d", FsNode.dir witTree)]).fs "tmp_data.tar" = none :=
  ⟨by decide, rfl, rfl,
    (transient_removed_on_success idZstd idBz2 witTar _ _ (by decide)).1 rfl rfl⟩

/-- Witness for C10: extracting the three-suffix source `a.b.tar.bz2`
writes the decompressed bytes directly to the target. -/
theorem extract_unbundle_iff_witness :
    lookupFs [("a.b.tar.bz2", FsNode.file [9])] "a.b.tar.bz2" = some (.file [9])
    ∧ isTarName (pathName "a.b.tar.bz2") = false
    ∧ (suffixOf (pathName "a.b.tar.bz2") = ".zst"
        ∨ suffixOf (pathName "a.b.tar.bz2") = ".bz2")
    ∧ codecDecompress idZstd idBz2 (suffixOf (pathName "a.b.tar.bz2")) [9] = .ok [9]
    ∧ main idZstd idBz2 witTar ⟨false, true, "a.b.tar.bz2", "out", false, false⟩
        [("a.b.tar.bz2", FsNode.file [9])]
      = ⟨setFs [("a.b.tar.bz2", FsNode.file [9])] "out" (.file [9]), none,
         if false then codecEvents (suffixOf (pathName "a.b.tar.bz2"))
           ([9] : Bytes).length else [],
         [.readF "a.b.tar.bz2", .writeF "out"]⟩ :=
  ⟨rfl, by decide, Or.inr (by decide), rfl,
    (extract_unbundle_iff idZstd idBz2 witTar [("a.b.tar.bz2", FsNode.file [9])]
        "a.b.tar.bz2" "out" false false).2.2 [9] [9] rfl (by decide)
        (Or.inr (by decide)) rfl⟩

end Archiver
